import Mathlib

/-!
Verification of the schema-driven CSV conversion engine of
`ashr-tech/csv-migration-tools`.

The engine lives in `converter/convert_csv.go` (`convertData`,
`convertValue`) over the data model of `types/schema.go`
(`ColumnSchema`).  `utils.ReadCSVString` (utils.go) parses the raw CSV
text and rejects an empty record set; the claims are stated over the
parsed record list, so the embedding takes the record list directly and
folds the non-emptiness guard of `ReadCSVString` into `convertData`.
-/

set_option autoImplicit false

namespace CsvMigration

/-- Go `strings.TrimSpace` (used throughout `convertData`): remove the
leading and trailing whitespace characters of a string.  Defined over
the character list so that it evaluates inside the kernel. -/
def trimString (s : String) : String :=
  ⟨((s.data.dropWhile Char.isWhitespace).reverse.dropWhile Char.isWhitespace).reverse⟩

/-- Equality of conversion results is decidable, so concrete runs of the
engine can be checked by evaluation. -/
instance {ε α : Type} [DecidableEq ε] [DecidableEq α] : DecidableEq (Except ε α) := fun a b =>
  match a, b with
  | Except.error x, Except.error y =>
    if h : x = y then isTrue (by rw [h]) else isFalse (by intro hc; cases hc; exact h rfl)
  | Except.error _, Except.ok _ => isFalse (by intro hc; cases hc)
  | Except.ok _, Except.error _ => isFalse (by intro hc; cases hc)
  | Except.ok x, Except.ok y =>
    if h : x = y then isTrue (by rw [h]) else isFalse (by intro hc; cases hc; exact h rfl)

/-- `types.ColumnSchema` (schema.go): one column of a source or target
schema.  `ValuesMapping` is a Go `map[string]string` that may be `nil`;
it is embedded as an optional association list whose `lookup` is the map
access `m[k]`. -/
structure ColumnSchema where
  column : String
  targetColumn : String
  values : List String
  valuesMapping : Option (List (String × String))
deriving DecidableEq

/-- The source column index map of `convertData` (convert_csv.go lines
78-82): Go builds `map[trimmed header name]position` by inserting each
header cell in order, a later duplicate overwriting an earlier one, and
then looks names up in the map.  Extensionally a lookup returns the
LAST position whose trimmed header cell equals the name, and `none`
when no position matches; this function computes exactly that (the
recursion prefers a match in the tail, i.e. at a larger index). -/
def lookupColIdx : List String → String → Option Nat
  | [], _ => none
  | c :: rest, name =>
    match lookupColIdx rest name with
    | some j => some (j + 1)
    | none => if trimString c = name then some 0 else none

/-- `convertValue` (convert_csv.go lines 128-138): apply the values
mapping when present and the value is a key, otherwise return the value
unchanged. -/
def convertValue (value : String) (sourceCol : ColumnSchema) : String :=
  match sourceCol.valuesMapping with
  | some m =>
    match m.lookup value with
    | some mappedValue => mappedValue
    | none => value
  | none => value

/-- One output cell of `convertData` (convert_csv.go lines 99-120): scan
the source schema for the first entry whose `TargetColumn` equals the
target column name (the Go loop breaks at the first match), resolve its
`Column` through the header index map, guard the row access by
`colIdx < len(sourceRow)`, trim, and transform non-blank values.  The Go
code only ever reads `targetCol.Column` from the target entry, so the
embedding takes the name itself. -/
def convertCell (header : List String) (sourceSchema : List ColumnSchema)
    (sourceRow : List String) (targetName : String) : String :=
  match sourceSchema.find? (fun s => s.targetColumn == targetName) with
  | none => ""
  | some s =>
    match lookupColIdx header s.column with
    | none => ""
    | some colIdx =>
      if h : colIdx < sourceRow.length then
        let sourceValue := trimString (sourceRow.get ⟨colIdx, h⟩)
        if sourceValue ≠ "" then convertValue sourceValue s else ""
      else ""

/-- One output data row of `convertData` (convert_csv.go lines 94-123):
`make([]string, len(targetSchema))` filled position by position. -/
def convertRow (header : List String) (sourceSchema targetSchema : List ColumnSchema)
    (sourceRow : List String) : List String :=
  targetSchema.map (fun t => convertCell header sourceSchema sourceRow t.column)

/-- `convertData` (convert_csv.go lines 71-126) after CSV parsing,
with the record-set non-emptiness guard of `utils.ReadCSVString`
(utils.go lines 45-61) folded in: an empty record list is the
`MalformedInputError` case, otherwise the output is the target-schema
header followed by one converted row per data row. -/
def convertData (records : List (List String))
    (sourceSchema targetSchema : List ColumnSchema) :
    Except String (List (List String)) :=
  match records with
  | [] => Except.error "no CSV data to convert"
  | header :: dataRows =>
    Except.ok ((targetSchema.map (fun t => t.column)) ::
      dataRows.map (convertRow header sourceSchema targetSchema))

/-- The identity schema over a schema, as in spec §8: one entry per
column, `targetColumn == column`, no values mapping. -/
def identitySchema (schema : List ColumnSchema) : List ColumnSchema :=
  schema.map (fun t => ⟨t.column, t.column, [], none⟩)

/-- Modelled from the spec (§4.2 complexity note and §9): the
recommended optimization precomputes, once per conversion call, a map
from target-column name to the source `ColumnSchema` that feeds it,
keeping for each name the FIRST source entry in declared order.
Embedded as an association list whose `lookup` returns the first
matching key. -/
def buildTargetIndex (sourceSchema : List ColumnSchema) :
    List (String × ColumnSchema) :=
  sourceSchema.map (fun s => (s.targetColumn, s))

/-- The optimized per-cell step: one map lookup instead of the linear
scan of `convertCell`; the rest is identical. -/
def convertCellFast (header : List String)
    (tindex : List (String × ColumnSchema)) (sourceRow : List String)
    (targetName : String) : String :=
  match tindex.lookup targetName with
  | none => ""
  | some s =>
    match lookupColIdx header s.column with
    | none => ""
    | some colIdx =>
      if h : colIdx < sourceRow.length then
        let sourceValue := trimString (sourceRow.get ⟨colIdx, h⟩)
        if sourceValue ≠ "" then convertValue sourceValue s else ""
      else ""

/-- The optimized conversion: build the target index once, then convert
every row through `convertCellFast`. -/
def convertDataFast (records : List (List String))
    (sourceSchema targetSchema : List ColumnSchema) :
    Except String (List (List String)) :=
  match records with
  | [] => Except.error "no CSV data to convert"
  | header :: dataRows =>
    let tindex := buildTargetIndex sourceSchema
    Except.ok ((targetSchema.map (fun t => t.column)) ::
      dataRows.map (fun row => targetSchema.map
        (fun t => convertCellFast header tindex row t.column)))

/-! ### Basic lemmas about the embedding -/

theorem convertRow_length (header : List String) (ss ts : List ColumnSchema)
    (row : List String) : (convertRow header ss ts row).length = ts.length := by
  simp [convertRow]

theorem convertRow_getElem? (header : List String) (ss ts : List ColumnSchema)
    (row : List String) (i : Nat) :
    (convertRow header ss ts row)[i]?
      = ts[i]?.map (fun t => convertCell header ss row t.column) := by
  simp [convertRow]

/-! ### Characterization of the header index map -/

theorem lookupColIdx_eq_some (header : List String) (name : String) (j : Nat)
    (h : lookupColIdx header name = some j) :
    ∃ c, header[j]? = some c ∧ trimString c = name := by
  induction header generalizing j with
  | nil => simp [lookupColIdx] at h
  | cons c0 rest ih =>
    rw [lookupColIdx] at h
    cases hr : lookupColIdx rest name with
    | some k =>
      rw [hr] at h
      simp only [Option.some.injEq] at h
      subst h
      obtain ⟨c, hc, ht⟩ := ih k hr
      exact ⟨c, by simpa using hc, ht⟩
    | none =>
      rw [hr] at h
      by_cases ht : trimString c0 = name
      · rw [if_pos ht] at h
        injection h with h
        subst h
        exact ⟨c0, by simp, ht⟩
      · simp [ht] at h

theorem lookupColIdx_isSome (header : List String) (name : String) (i : Nat)
    (c : String) (hget : header[i]? = some c) (ht : trimString c = name) :
    (lookupColIdx header name).isSome := by
  induction header generalizing i with
  | nil => simp at hget
  | cons c0 rest ih =>
    rw [lookupColIdx]
    cases hr : lookupColIdx rest name with
    | some k => simp
    | none =>
      cases i with
      | zero =>
        simp only [List.getElem?_cons_zero, Option.some.injEq] at hget
        subst hget
        simp [ht]
      | succ k =>
        simp only [List.getElem?_cons_succ] at hget
        have hsome := ih k hget
        rw [hr] at hsome
        simp at hsome

theorem lookupColIdx_eq_none (header : List String) (name : String)
    (h : ∀ (i : Nat) (c : String), header[i]? = some c → trimString c ≠ name) :
    lookupColIdx header name = none := by
  induction header with
  | nil => rfl
  | cons c0 rest ih =>
    have hrest : lookupColIdx rest name = none := by
      apply ih
      intro i c hc
      exact h (i + 1) c (by simpa using hc)
    rw [lookupColIdx, hrest]
    have hne : trimString c0 ≠ name := h 0 c0 (by simp)
    simp [hne]

theorem lookupColIdx_last (header : List String) (name : String) (j : Nat)
    (c : String) (hget : header[j]? = some c) (ht : trimString c = name)
    (hafter : ∀ (l : Nat) (d : String), j < l → header[l]? = some d → trimString d ≠ name) :
    lookupColIdx header name = some j := by
  induction header generalizing j with
  | nil => simp at hget
  | cons c0 rest ih =>
    cases j with
    | zero =>
      simp only [List.getElem?_cons_zero, Option.some.injEq] at hget
      subst hget
      have hrest : lookupColIdx rest name = none := by
        apply lookupColIdx_eq_none
        intro i d hd
        exact hafter (i + 1) d (Nat.succ_pos i) (by simpa using hd)
      rw [lookupColIdx, hrest]
      simp [ht]
    | succ k =>
      simp only [List.getElem?_cons_succ] at hget
      have hrest : lookupColIdx rest name = some k := by
        apply ih k hget
        intro l d hl hd
        exact hafter (l + 1) d (Nat.succ_lt_succ hl) (by simpa using hd)
      rw [lookupColIdx, hrest]

theorem find?_eq_some_unique {α : Type} (p : α → Bool) (l : List α) (x : α)
    (hmem : x ∈ l) (hx : p x = true)
    (huniq : ∀ y ∈ l, p y = true → y = x) :
    l.find? p = some x := by
  induction l with
  | nil => simp at hmem
  | cons a rest ih =>
    by_cases ha : p a = true
    · have hax : a = x := huniq a (List.mem_cons_self a rest) ha
      subst hax
      simp [List.find?_cons_of_pos, ha]
    · rw [List.find?_cons_of_neg _ (by simpa using ha)]
      rcases List.mem_cons.mp hmem with heq | hmem2
      · subst heq; exact absurd hx ha
      · exact ih hmem2 (fun y hy hp => huniq y (List.mem_cons_of_mem a hy) hp)

/-! ### Claims C1, C4, C10: output shape, the empty-input error, totality -/

/-- Claim C1: for every well-formed input and all schemas, a successful
conversion returns exactly one header row plus one output row per input
data row (the output has as many rows as the input), the header row is
the list of target columns in target-schema order, and every output row
has exactly as many cells as the target schema, independent of the
source layout. -/
theorem claim1_output_shape (records : List (List String))
    (ss ts : List ColumnSchema) (out : List (List String))
    (hok : convertData records ss ts = Except.ok out) :
    out.length = records.length ∧
    out.head? = some (ts.map (fun t => t.column)) ∧
    ∀ row ∈ out, row.length = ts.length := by
  cases records with
  | nil => simp [convertData] at hok
  | cons header dataRows =>
    simp only [convertData, Except.ok.injEq] at hok
    subst hok
    refine ⟨by simp, rfl, ?_⟩
    intro row hrow
    rcases List.mem_cons.mp hrow with hhd | hmem
    · subst hhd; simp
    · obtain ⟨r, _, rfl⟩ := List.mem_map.mp hmem
      exact convertRow_length header ss ts r

/-- Witness for C1 at a concrete input: two data rows, one target
column, an empty source schema. -/
theorem claim1_output_shape_witness :
    ([["t"], [""], [""]] : List (List String)).length
        = ([["a"], ["1"], ["2"]] : List (List String)).length ∧
    ([["t"], [""], [""]] : List (List String)).head?
        = some (([⟨"t", "", [], none⟩] : List ColumnSchema).map (fun t => t.column)) ∧
    ∀ row ∈ ([["t"], [""], [""]] : List (List String)),
      row.length = ([⟨"t", "", [], none⟩] : List ColumnSchema).length :=
  claim1_output_shape [["a"], ["1"], ["2"]] [] [⟨"t", "", [], none⟩]
    [["t"], [""], [""]] (by decide)

/-- Claim C4: converting an empty record set (no header row at all)
fails with the malformed-input error and produces no output rows, and
converting any non-empty record set never fails. -/
theorem claim4_empty_input (records : List (List String))
    (ss ts : List ColumnSchema) :
    (records = [] → convertData records ss ts = Except.error "no CSV data to convert") ∧
    (records ≠ [] → ∃ out, convertData records ss ts = Except.ok out) := by
  constructor
  · rintro rfl; rfl
  · intro h
    cases records with
    | nil => exact absurd rfl h
    | cons a l => exact ⟨_, rfl⟩

/-- Witness for C4: the empty record set errors, a one-row record set
succeeds. -/
theorem claim4_empty_input_witness :
    convertData [] [] [] = Except.error "no CSV data to convert" ∧
    ∃ out, convertData [["a"], ["1"]] [] [] = Except.ok out :=
  ⟨(claim4_empty_input [] [] []).1 rfl,
   (claim4_empty_input [["a"], ["1"]] [] []).2 (by decide)⟩

/-- Claim C10: totality at the public interface.  For any record set
with at least a header and arbitrary ragged data rows (shorter or
longer than the header) and arbitrary schemas, the conversion returns a
full result: the embedding guards every source-row read by
`colIdx < sourceRow.length` exactly as the code does, so no
out-of-bounds access exists and the result is always `Except.ok` with
one header row plus one row of target-schema arity per data row. -/
theorem claim10_totality (header : List String) (rows : List (List String))
    (ss ts : List ColumnSchema) :
    ∃ out, convertData (header :: rows) ss ts = Except.ok out ∧
      out.length = rows.length + 1 ∧
      ∀ row ∈ out.tail, row.length = ts.length := by
  refine ⟨_, rfl, by simp, ?_⟩
  intro row hrow
  simp only [List.tail_cons] at hrow
  obtain ⟨r, _, rfl⟩ := List.mem_map.mp hrow
  exact convertRow_length header ss ts r

/-! ### Cell-level behavior -/

theorem convertCell_found (header row : List String) (ss : List ColumnSchema)
    (tname : String) (s : ColumnSchema) (colIdx : Nat)
    (hfind : ss.find? (fun e => e.targetColumn == tname) = some s)
    (hidx : lookupColIdx header s.column = some colIdx)
    (hlt : colIdx < row.length) :
    convertCell header ss row tname =
      if trimString (row[colIdx]) ≠ "" then
        convertValue (trimString (row[colIdx])) s
      else "" := by
  simp only [convertCell, hfind, hidx]
  rw [dif_pos hlt]
  simp [List.get_eq_getElem]

/-- Claim C2 (amended): for every data row and target column, the engine
uses the first source-schema entry in declared order whose
`targetColumn` equals the target column name; provided the source cell
resolves and its trimmed value is non-empty, the output cell is the
mapped value when the trimmed value is a key of the values mapping of
that entry, and the trimmed raw value unchanged when the mapping is
absent or the trimmed value is not one of its keys.  (The non-emptiness
proviso is forced by the blank-cell rule, see the counterexample.) -/
theorem claim2_value_mapping (header row : List String)
    (ss ts : List ColumnSchema) (i : Nat) (t s : ColumnSchema) (colIdx : Nat)
    (ht : ts[i]? = some t)
    (hfind : ss.find? (fun e => e.targetColumn == t.column) = some s)
    (hidx : lookupColIdx header s.column = some colIdx)
    (hlt : colIdx < row.length)
    (hne : trimString (row[colIdx]) ≠ "") :
    (∀ (m : List (String × String)) (w : String), s.valuesMapping = some m →
        m.lookup (trimString (row[colIdx])) = some w →
        (convertRow header ss ts row)[i]? = some w) ∧
    (∀ (m : List (String × String)), s.valuesMapping = some m →
        m.lookup (trimString (row[colIdx])) = none →
        (convertRow header ss ts row)[i]? = some (trimString (row[colIdx]))) ∧
    (s.valuesMapping = none →
        (convertRow header ss ts row)[i]? = some (trimString (row[colIdx]))) := by
  have hcell : (convertRow header ss ts row)[i]?
      = some (convertCell header ss row t.column) := by
    rw [convertRow_getElem?, ht, Option.map_some']
  have hval : convertCell header ss row t.column
      = convertValue (trimString (row[colIdx])) s := by
    rw [convertCell_found header row ss t.column s colIdx hfind hidx hlt, if_pos hne]
  refine ⟨?_, ?_, ?_⟩
  · intro m w hm hlk
    rw [hcell, hval]
    simp [convertValue, hm, hlk]
  · intro m hm hlk
    rw [hcell, hval]
    simp [convertValue, hm, hlk]
  · intro hnone
    rw [hcell, hval]
    simp [convertValue, hnone]

/-- Witness for the amended C2 at a concrete input: cell `"  Y  "`
trims to `"Y"`, which the mapping sends to `"yes"`. -/
theorem claim2_value_mapping_witness :
    (convertRow ["a"] [⟨"a", "t", [], some [("Y", "yes")]⟩]
      [⟨"t", "", [], none⟩] ["  Y  "])[0]? = some "yes" := by
  have h := claim2_value_mapping ["a"] ["  Y  "]
    [⟨"a", "t", [], some [("Y", "yes")]⟩] [⟨"t", "", [], none⟩] 0
    ⟨"t", "", [], none⟩ ⟨"a", "t", [], some [("Y", "yes")]⟩ 0
    (by decide) (by decide) (by decide) (by decide) (by decide)
  exact h.1 [("Y", "yes")] "yes" rfl (by decide)

/-- C2 as frozen is refuted when the cell trims to the empty string and
the empty string is itself a key of the values mapping: the first
matching entry is found, the trimmed value `""` is a key mapped to
`"mapped"`, yet the engine emits `""`, not `"mapped"`, because the
blank-cell guard skips the transform. -/
theorem claim2_counterexample :
    (([⟨"src", "tgt", [], some [("", "mapped")]⟩] : List ColumnSchema).find?
        (fun e => e.targetColumn == "tgt")
      = some ⟨"src", "tgt", [], some [("", "mapped")]⟩) ∧
    lookupColIdx ["src"] "src" = some 0 ∧
    trimString " " = "" ∧
    List.lookup "" [("", "mapped")] = some "mapped" ∧
    convertData [["src"], [" "]] [⟨"src", "tgt", [], some [("", "mapped")]⟩]
      [⟨"tgt", "", [], none⟩] = Except.ok [["tgt"], [""]] ∧
    ("" : String) ≠ "mapped" := by
  refine ⟨by decide, by decide, by decide, by decide, by decide, by decide⟩

/-- Claim C6: if the raw source cell trims to the empty string then the
output cell is the empty string, no matter which values mapping the
matching source entry carries (even one with the empty string as a
key). -/
theorem claim6_blank_cell (header row : List String)
    (ss ts : List ColumnSchema) (i : Nat) (t s : ColumnSchema) (colIdx : Nat)
    (ht : ts[i]? = some t)
    (hfind : ss.find? (fun e => e.targetColumn == t.column) = some s)
    (hidx : lookupColIdx header s.column = some colIdx)
    (hlt : colIdx < row.length)
    (hblank : trimString (row[colIdx]) = "") :
    (convertRow header ss ts row)[i]? = some "" := by
  rw [convertRow_getElem?, ht, Option.map_some']
  rw [convertCell_found header row ss t.column s colIdx hfind hidx hlt]
  simp [hblank]

/-- Witness for C6: a whitespace-only cell gives a blank output cell
even though the mapping contains the empty string as a key. -/
theorem claim6_blank_cell_witness :
    (convertRow ["a"] [⟨"a", "t", [], some [("", "X")]⟩]
      [⟨"t", "", [], none⟩] ["   "])[0]? = some "" :=
  claim6_blank_cell ["a"] ["   "] [⟨"a", "t", [], some [("", "X")]⟩]
    [⟨"t", "", [], none⟩] 0 ⟨"t", "", [], none⟩ ⟨"a", "t", [], some [("", "X")]⟩ 0
    (by decide) (by decide) (by decide) (by decide) (by decide)

/-! ### Claims C3, C5, C7 -/

/-- C3 as frozen is refuted when the target schema itself contains a
column whose name is the empty string: a source entry whose
`targetColumn` is empty then matches that target column (the code
compares the two strings, and both are `""`), so the entry DOES
contribute a value.  Here the entry `⟨"a", "", [], none⟩` has an empty
`targetColumn`, the sole target column is named `""`, and the output
cell is `"v"`, not `""`. -/
theorem claim3_counterexample :
    convertData [["a"], ["v"]] [⟨"a", "", [], none⟩] [⟨"", "", [], none⟩]
      = Except.ok [[""], ["v"]] ∧ ("v" : String) ≠ "" := by
  exact ⟨by decide, by decide⟩

/-- Claim C3 (amended): a source entry with an empty `targetColumn`
never feeds a target column whose name is non-empty; a target column
with a non-empty name whose only candidate feeders are such entries
(so no entry carries its name) gets the empty string in every output
cell, and the conversion still succeeds. -/
theorem claim3_empty_target_column (header row : List String)
    (rows : List (List String)) (ss ts : List ColumnSchema)
    (i : Nat) (t : ColumnSchema)
    (ht : ts[i]? = some t) (hne : t.column ≠ "")
    (honly : ∀ s ∈ ss, s.targetColumn = t.column → s.targetColumn = "") :
    (convertRow header ss ts row)[i]? = some "" ∧
    ∃ out, convertData (header :: rows) ss ts = Except.ok out := by
  have hfind : ss.find? (fun e => e.targetColumn == t.column) = none := by
    rw [List.find?_eq_none]
    intro s hs
    simp only [beq_iff_eq]
    intro heq
    exact hne (by rw [← heq]; exact honly s hs heq)
  refine ⟨?_, ⟨_, rfl⟩⟩
  rw [convertRow_getElem?, ht, Option.map_some']
  simp [convertCell, hfind]

/-- Witness for the amended C3: the only source entry has an empty
`targetColumn`, the target column is `"phone"`, and the cell is blank
while the conversion succeeds. -/
theorem claim3_empty_target_column_witness :
    (convertRow ["a"] [⟨"a", "", [], none⟩] [⟨"phone", "", [], none⟩] ["v"])[0]?
      = some "" ∧
    ∃ out, convertData [["a"], ["v"]] [⟨"a", "", [], none⟩]
      [⟨"phone", "", [], none⟩] = Except.ok out :=
  claim3_empty_target_column ["a"] ["v"] [["v"]] [⟨"a", "", [], none⟩]
    [⟨"phone", "", [], none⟩] 0 ⟨"phone", "", [], none⟩
    (by decide) (by decide) (by decide)

/-- Claim C5: missing-mapping and missing-cell conditions are never
errors.  If no source entry carries the target column name, or the
matching entry resolves to no header position, or the resolved position
is beyond the end of the data row, the output cell is the empty string
and the whole conversion still returns a result. -/
theorem claim5_lenient_fallback (header row : List String)
    (rows : List (List String)) (ss ts : List ColumnSchema)
    (i : Nat) (t : ColumnSchema)
    (ht : ts[i]? = some t)
    (hcase : ss.find? (fun e => e.targetColumn == t.column) = none
      ∨ ∃ s, ss.find? (fun e => e.targetColumn == t.column) = some s ∧
          (lookupColIdx header s.column = none
           ∨ ∃ colIdx, lookupColIdx header s.column = some colIdx ∧
               row.length ≤ colIdx)) :
    (convertRow header ss ts row)[i]? = some "" ∧
    ∃ out, convertData (header :: rows) ss ts = Except.ok out := by
  refine ⟨?_, ⟨_, rfl⟩⟩
  rw [convertRow_getElem?, ht, Option.map_some']
  rcases hcase with hnone | ⟨s, hfind, hrest⟩
  · simp [convertCell, hnone]
  · rcases hrest with hl | ⟨colIdx, hidx, hge⟩
    · simp [convertCell, hfind, hl]
    · simp only [convertCell, hfind, hidx]
      rw [dif_neg (by omega)]

/-- Witness for C5, exercising the no-matching-entry case: the target
column `"phone"` has no source entry, the cell is blank, the conversion
succeeds. -/
theorem claim5_lenient_fallback_witness :
    (convertRow ["a"] [] [⟨"phone", "", [], none⟩] ["v"])[0]? = some "" ∧
    ∃ out, convertData [["a"], ["v"]] [] [⟨"phone", "", [], none⟩]
      = Except.ok out :=
  claim5_lenient_fallback ["a"] ["v"] [["v"]] [] [⟨"phone", "", [], none⟩] 0
    ⟨"phone", "", [], none⟩ (by decide) (Or.inl (by decide))

/-- Claim C7: when the same trimmed name occurs at two positions
`i < j` of the source header and `j` is the last such position, the
header index map resolves the name to `j` (the last duplicate wins),
and consequently every cell resolved through a source entry carrying
that name is read from position `j` of the data row. -/
theorem claim7_duplicate_header_last_wins (header : List String)
    (name : String) (i j : Nat) (ci cj : String)
    (hij : i < j)
    (hgeti : header[i]? = some ci) (hti : trimString ci = name)
    (hgetj : header[j]? = some cj) (htj : trimString cj = name)
    (hafter : ∀ (l : Nat) (d : String), j < l → header[l]? = some d →
        trimString d ≠ name) :
    lookupColIdx header name = some j ∧
    ∀ (ss : List ColumnSchema) (row : List String) (s : ColumnSchema)
      (tname : String),
      ss.find? (fun e => e.targetColumn == tname) = some s → s.column = name →
      convertCell header ss row tname =
        (if h : j < row.length then
          (if trimString row[j] ≠ "" then convertValue (trimString row[j]) s
           else "")
         else "") := by
  have hlast : lookupColIdx header name = some j :=
    lookupColIdx_last header name j cj hgetj htj hafter
  refine ⟨hlast, ?_⟩
  intro ss row s tname hfind hcol
  simp only [convertCell, hfind, hcol, hlast]
  by_cases h : j < row.length
  · rw [dif_pos h, dif_pos h]
    simp [List.get_eq_getElem]
  · rw [dif_neg h, dif_neg h]

/-- Witness for C7: header `["x", "x"]` resolves `"x"` to position 1,
and the cell read through it is `"b"`, the second entry of the row. -/
theorem claim7_duplicate_header_last_wins_witness :
    lookupColIdx ["x", "x"] "x" = some 1 ∧
    convertCell ["x", "x"] [⟨"x", "t", [], none⟩] ["a", "b"] "t" = "b" := by
  have h := claim7_duplicate_header_last_wins ["x", "x"] "x" 0 1 "x" "x"
    (by decide) (by decide) (by decide) (by decide) (by decide)
    (by
      intro l d hl hd
      rw [List.getElem?_eq_none (by simpa using hl)] at hd
      cases hd)
  refine ⟨h.1, ?_⟩
  rw [h.2 [⟨"x", "t", [], none⟩] ["a", "b"] ⟨"x", "t", [], none⟩ "t"
    (by decide) rfl]
  decide

/-! ### Claim C9: the precomputed target-column index refinement -/

theorem buildTargetIndex_lookup (ss : List ColumnSchema) (name : String) :
    (buildTargetIndex ss).lookup name
      = ss.find? (fun e => e.targetColumn == name) := by
  induction ss with
  | nil => rfl
  | cons s rest ih =>
    by_cases h : s.targetColumn = name
    · simp [buildTargetIndex, List.lookup, List.find?, h]
    · have hb1 : (name == s.targetColumn) = false :=
        beq_eq_false_iff_ne.mpr (fun heq => h heq.symm)
      have hb2 : (s.targetColumn == name) = false :=
        beq_eq_false_iff_ne.mpr h
      simp only [buildTargetIndex, List.map_cons, List.lookup, List.find?,
        hb1, hb2]
      exact ih

theorem convertCellFast_eq (header row : List String)
    (ss : List ColumnSchema) (tname : String) :
    convertCellFast header (buildTargetIndex ss) row tname
      = convertCell header ss row tname := by
  rw [convertCellFast, convertCell, buildTargetIndex_lookup]

/-- Claim C9: replacing the per-cell linear scan over the source schema
with a target-column-to-source-entry map precomputed once per call (the
map keeping, for each target-column name, the first source entry in
declared order) yields output identical to the reference linear-scan
conversion for every input and every pair of schemas. -/
theorem claim9_precomputed_index (records : List (List String))
    (ss ts : List ColumnSchema) :
    convertDataFast records ss ts = convertData records ss ts := by
  cases records with
  | nil => rfl
  | cons header rows =>
    simp [convertDataFast, convertData, convertRow, convertCellFast_eq]

/-! ### Claim C8: the identity round-trip -/

theorem mem_of_idx {α : Type} (l : List α) (i : Nat) (a : α)
    (h : l[i]? = some a) : a ∈ l := by
  have hi := (List.getElem?_eq_some.mp h).1
  rw [List.getElem?_eq_getElem hi] at h
  exact Option.some.inj h ▸ List.getElem_mem hi

theorem convertCell_identity (ts : List ColumnSchema) (g : String → String)
    (htrim : ∀ t ∈ ts, trimString t.column = t.column)
    (t : ColumnSchema) (hmem : t ∈ ts) :
    convertCell (ts.map (fun u => u.column)) (identitySchema ts)
      (ts.map (fun u => g u.column)) t.column
      = trimString (g t.column) := by
  have hcc : trimString t.column = t.column := htrim t hmem
  have hfind : (identitySchema ts).find? (fun e => e.targetColumn == t.column)
      = some ⟨t.column, t.column, [], none⟩ := by
    apply find?_eq_some_unique
    · simp only [identitySchema, List.mem_map]
      exact ⟨t, hmem, rfl⟩
    · simp
    · intro y hy hp
      simp only [identitySchema, List.mem_map] at hy
      obtain ⟨u, hu, rfl⟩ := hy
      simp only [beq_iff_eq] at hp
      simp [hp]
  obtain ⟨i, hi⟩ := List.mem_iff_getElem?.mp hmem
  have hhd : (ts.map (fun u => u.column))[i]? = some t.column := by
    rw [List.getElem?_map, hi, Option.map_some']
  have hsome := lookupColIdx_isSome (ts.map (fun u => u.column)) t.column i
    t.column hhd hcc
  obtain ⟨j, hj⟩ := Option.isSome_iff_exists.mp hsome
  obtain ⟨d, hd, htd⟩ := lookupColIdx_eq_some _ _ _ hj
  obtain ⟨u, hu, hud⟩ : ∃ u, ts[j]? = some u ∧ u.column = d := by
    rw [List.getElem?_map] at hd
    cases hts : ts[j]? with
    | none => rw [hts] at hd; cases hd
    | some u =>
      rw [hts, Option.map_some'] at hd
      exact ⟨u, rfl, Option.some.inj hd⟩
  have hdc : d = t.column := by
    have humem : u ∈ ts := mem_of_idx ts j u hu
    rw [← htd, ← hud, htrim u humem, hud]
  have hjlen : j < (ts.map (fun u => g u.column)).length := by
    have hjl : j < ts.length := (List.getElem?_eq_some.mp hu).1
    simpa using hjl
  have hrow : (ts.map (fun u => g u.column))[j]? = some (g t.column) := by
    rw [List.getElem?_map, hu, Option.map_some', hud, hdc]
  have hrowj : (ts.map (fun u => g u.column))[j] = g t.column := by
    rw [List.getElem?_eq_getElem hjlen] at hrow
    exact Option.some.inj hrow
  rw [convertCell_found (ts.map (fun u => u.column))
    (ts.map (fun u => g u.column)) (identitySchema ts) t.column
    ⟨t.column, t.column, [], none⟩ j hfind hj hjlen]
  rw [hrowj]
  by_cases hne : trimString (g t.column) ≠ ""
  · rw [if_pos hne]
    simp [convertValue]
  · rw [if_neg hne]
    push_neg at hne
    rw [hne]

theorem convertRow_identity (ts : List ColumnSchema) (g : String → String)
    (htrim : ∀ t ∈ ts, trimString t.column = t.column) :
    convertRow (ts.map (fun u => u.column)) (identitySchema ts)
      (identitySchema ts) (ts.map (fun u => g u.column))
      = (ts.map (fun u => g u.column)).map trimString := by
  have h1 : convertRow (ts.map (fun u => u.column)) (identitySchema ts)
      (identitySchema ts) (ts.map (fun u => g u.column))
      = (ts.map (fun t => (⟨t.column, t.column, [], none⟩ : ColumnSchema))).map
          (fun t => convertCell (ts.map (fun u => u.column)) (identitySchema ts)
            (ts.map (fun u => g u.column)) t.column) := rfl
  rw [h1, List.map_map, List.map_map]
  apply List.map_congr_left
  intro t hmem
  simp only [Function.comp_apply]
  exact convertCell_identity ts g htrim t hmem

/-- C8 as frozen is refuted when a target column name carries
surrounding whitespace: the first conversion emits that name verbatim as
the output header, but the re-conversion trims header cells when
building the index map and then looks the untrimmed name up, finds
nothing, and blanks the column.  Here the target column is `" a"`, the
engine output is `[[" a"], ["v"]]`, and re-converting it under the
identity schema yields `[[" a"], [""]]`, losing `"v"`. -/
theorem claim8_counterexample :
    convertData [["x"], ["v"]] [⟨"x", " a", [], none⟩] [⟨" a", "", [], none⟩]
      = Except.ok [[" a"], ["v"]] ∧
    convertData [[" a"], ["v"]] (identitySchema [⟨" a", "", [], none⟩])
        (identitySchema [⟨" a", "", [], none⟩])
      = Except.ok [[" a"], [""]] ∧
    ("" : String) ≠ trimString "v" := by
  refine ⟨by decide, by decide, by decide⟩

/-- Claim C8 (amended): for every input whose conversion succeeds, if
every target column name is free of surrounding whitespace (trimming it
is the identity), converting the engine output again under the identity
schema built from the target schema yields the same table with every
data cell trimmed — the original output unchanged modulo whitespace
trimming of cells. -/
theorem claim8_identity_roundtrip (records out : List (List String))
    (ss ts : List ColumnSchema)
    (hok : convertData records ss ts = Except.ok out)
    (htrim : ∀ t ∈ ts, trimString t.column = t.column) :
    convertData out (identitySchema ts) (identitySchema ts)
      = Except.ok ((ts.map (fun t => t.column)) ::
          out.tail.map (fun row => row.map trimString)) := by
  cases records with
  | nil => simp [convertData] at hok
  | cons header rows =>
    simp only [convertData, Except.ok.injEq] at hok
    subst hok
    simp only [convertData, List.tail_cons]
    refine congrArg Except.ok ?_
    have hcols : (identitySchema ts).map (fun t => t.column)
        = ts.map (fun t => t.column) := by
      simp [identitySchema]
    rw [hcols]
    refine congrArg (List.cons _) ?_
    rw [List.map_map, List.map_map]
    apply List.map_congr_left
    intro r hr
    simp only [Function.comp_apply]
    exact convertRow_identity ts (fun name => convertCell header ss r name) htrim

/-- Witness for the amended C8: the §8 example round-trips — its output
re-converted under the identity schema is itself (all cells already
trimmed). -/
theorem claim8_identity_roundtrip_witness :
    convertData [["is_active"], ["true"], ["false"], [""]]
        (identitySchema [⟨"is_active", "", [], none⟩])
        (identitySchema [⟨"is_active", "", [], none⟩])
      = Except.ok ((([⟨"is_active", "", [], none⟩] : List ColumnSchema).map
            (fun t => t.column)) ::
          ([["true"], ["false"], [""]] : List (List String)).map
            (fun row => row.map trimString)) :=
  claim8_identity_roundtrip [["active_status"], ["Y"], ["N"], ["x"]]
    [["is_active"], ["true"], ["false"], [""]]
    [⟨"active_status", "is_active", ["Y", "N"],
      some [("Y", "true"), ("N", "false"), ("x", "")]⟩]
    [⟨"is_active", "", [], none⟩] (by decide) (by decide)

/-- The worked example of spec §8: categorical remapping of
`active_status` to `is_active`, with a blank cell passing through
blank. -/
theorem spec_example_active_status :
    convertData [["active_status"], ["Y"], ["N"], [""]]
      [⟨"active_status", "is_active", ["Y", "N"], some [("Y", "true"), ("N", "false")]⟩]
      [⟨"is_active", "", [], none⟩]
      = Except.ok [["is_active"], ["true"], ["false"], [""]] := by decide

/-- Sanity check: a duplicated header name resolves to its last
position. -/
theorem sanity_duplicate_header : lookupColIdx ["x", "y", "x"] "x" = some 2 := by
  decide

end CsvMigration
